import Mathlib

/-!
# Verification of the `rua` tree-to-text translation engine

Shallow embedding of `src/main.rs`: a Rust-to-Lua source-to-source code
generator.  The generator walks a parsed syntax tree and appends text to a
single output buffer while tracking an indentation counter; every syntax-tree
variant outside the supported subset makes the corresponding translation
function panic.

Modelling choices:
* Rust panics become `Except` errors.  The error value carries the offending
  node (mirroring the `{:?}` payload of the panic message) together with the
  generator state at the point of detection, so that properties of the state
  at abort time are expressible.
* `curr_indent` is a `usize` in the source; it is modelled as `Int` so that
  non-negativity of the depth counter is a provable property rather than a
  triviality of the type.  The space count `2 * curr_indent` is taken through
  `Int.toNat` exactly where the source multiplies.
* The state carries an extra `trace` field, pure observational
  instrumentation recording the value of `curr_indent` each time the
  indentation prefix is written (`Generator::indent`).  It never influences
  the buffer or the counter; it only makes "the depth at which each statement
  is emitted" a stateable quantity.
* Span/attribute/type metadata that the generator never reads (literal
  suffixes, binding modes, argument types, spans) is omitted; fields the
  generator receives and deliberately ignores (loop/break labels, the
  else-branch of an `if`, the trailing-semicolon distinction) are kept.
-/

namespace Rua

/-- A qualified name: `ast::Path`, reduced to its list of segment identifiers. -/
structure Path where
  segments : List String
deriving DecidableEq

/-- Binary operator kinds (`ast::BinOpKind`); the generator prints
`op.node.to_string()`, the operator's Rust spelling. -/
inductive BinOpKind where
  | add | sub | mul | div | rem
  | and | or
  | bitXor | bitAnd | bitOr | shl | shr
  | eq | lt | le | ne | ge | gt
deriving DecidableEq

/-- `BinOpKind::to_string()`: the canonical textual symbol. -/
def BinOpKind.toStr : BinOpKind → String
  | .add => "+" | .sub => "-" | .mul => "*" | .div => "/" | .rem => "%"
  | .and => "&&" | .or => "||"
  | .bitXor => "^" | .bitAnd => "&" | .bitOr => "|" | .shl => "<<" | .shr => ">>"
  | .eq => "==" | .lt => "<" | .le => "<=" | .ne => "!=" | .ge => ">=" | .gt => ">"

/-- Literal kinds (`ast::LitKind`): the generator supports `Str` and `Int`
only; every other kind is collapsed into `other`, carrying a description in
place of the debug-formatted node. -/
inductive Lit where
  | str (s : String)
  | int (n : Nat)
  | other (desc : String)
deriving DecidableEq

/-- Patterns (`ast::PatKind`): the generator supports a bare identifier
binding or a path pattern; everything else is `other`. -/
inductive Pat where
  | ident (name : String)
  | path (p : Path)
  | other (desc : String)
deriving DecidableEq

mutual

/-- Expressions (`ast::ExprKind`), restricted to the variants the generator
matches on, plus a catch-all `other` for every unsupported variant.  A Block
is an ordered list of statements.  The `ifE` else-branch and the loop/break
labels are present in the tree but ignored by the generator. -/
inductive Expr where
  | lit (l : Lit)
  | path (p : Path)
  | call (f : Expr) (args : List Expr)
  | binary (op : BinOpKind) (lhs rhs : Expr)
  | assign (a b : Expr)
  | assignOp (op : BinOpKind) (a b : Expr)
  | ret (val : Option Expr)
  | loop (body : List Stmt) (label : Option String)
  | ifE (cond : Expr) (thenB : List Stmt) (els : Option Expr)
  | breakE (label : Option String) (val : Option Expr)
  | other (desc : String)

/-- Statements (`ast::StmtKind`): nested item, bare expression, expression
with trailing semicolon, local binding, or an unsupported kind. -/
inductive Stmt where
  | item (i : Item)
  | expr (e : Expr)
  | semi (e : Expr)
  | localS (pat : Pat) (init : Option Expr)
  | other (desc : String)

/-- Items (`ast::ItemKind`): only function definitions are supported.  The
inputs are the argument patterns (declared types are never read). -/
inductive Item where
  | fn (name : String) (inputs : List Pat) (body : List Stmt)
  | other (desc : String)

end

/-- Generator state: the output buffer and the indentation counter
(`struct Generator`), plus the observational `trace` of depths at which the
indentation prefix was written. -/
structure GenState where
  buf : String
  curr_indent : Int
  trace : List Int
deriving DecidableEq

/-- The translation errors: each panic site of the source, carrying the
offending node exactly as the panic message formats it. -/
inductive Err where
  | unsupportedLit (l : Lit)
  | unsupportedExpr (e : Expr)
  | unsupportedPat (p : Pat)
  | unsupportedStmt (st : Stmt)
  | unsupportedItem (i : Item)
  | unsupportedPath (p : Path)

/-- Result of a translation function: the updated state, or a panic carrying
the error and the state at the point of detection. -/
abbrev Res := Except (Err × GenState) GenState

/-- `Generator::new()` composed with `main`'s fresh generator: empty buffer,
zero indentation. -/
def initState : GenState := ⟨"", 0, []⟩

/-- `Generator::push_str`. -/
def pushStr (str : String) (s : GenState) : GenState :=
  { s with buf := s.buf ++ str }

/-- `Generator::indent`: append `2 * curr_indent` spaces (and record the
current depth in the observational trace). -/
def indentG (s : GenState) : GenState :=
  { s with
      buf := s.buf ++ String.mk (List.replicate (2 * s.curr_indent).toNat ' '),
      trace := s.trace ++ [s.curr_indent] }

/-- `Generator::end`: indentation then `end`. -/
def endG (s : GenState) : GenState :=
  pushStr "end" (indentG s)

/-- `Generator::ident`: the identifier's name text. -/
def identG (name : String) (s : GenState) : GenState :=
  pushStr name s

/-- `Generator::literal`: strings single-quoted verbatim, integers in
decimal, panic on any other literal kind. -/
def literalT (l : Lit) (s : GenState) : Res :=
  match l with
  | .str str => .ok (pushStr ("'" ++ str ++ "'") s)
  | .int n => .ok (pushStr (toString n) s)
  | .other d => .error (.unsupportedLit (.other d), s)

/-- `Generator::path`: asserts the path has exactly one segment and emits its
identifier; the failed assertion is a panic. -/
def pathT (p : Path) (s : GenState) : Res :=
  match p.segments with
  | [seg] => .ok (identG seg s)
  | _ => .error (.unsupportedPath p, s)

/-- `Generator::pat`: identifier or single-segment path; panic otherwise. -/
def patT (p : Pat) (s : GenState) : Res :=
  match p with
  | .ident name => .ok (identG name s)
  | .path q => pathT q s
  | .other d => .error (.unsupportedPat (.other d), s)

/-- The loop body of `Generator::args`: each argument's pattern, with a
`", "` separator after every argument except the last. -/
def argsElems (pats : List Pat) (s : GenState) : Res :=
  match pats with
  | [] => .ok s
  | [p] => patT p s
  | p :: q :: rest =>
    match patT p s with
    | .error e => .error e
    | .ok s₁ => argsElems (q :: rest) (pushStr ", " s₁)

/-- `Generator::args`: parenthesized comma-space-separated parameter list. -/
def argsT (pats : List Pat) (s : GenState) : Res :=
  match argsElems pats (pushStr "(" s) with
  | .error e => .error e
  | .ok s₁ => .ok (pushStr ")" s₁)

/-!
The translators are mutually recursive over the syntax tree.  So that the
definitions stay kernel-computable (structural recursion), the bodies of the
source's three helper methods whose recursive calls are not on strict
subterms — `Generator::op`, `Generator::tuple` and `Generator::block` — are
inlined at their call sites inside the mutual block.  The helpers themselves
are defined right after the block with their source shapes (`opT`, `tupleT`,
`blockT`), and the bridge lemmas `exprT_binary`, `exprT_assignOp`,
`exprT_call`, `exprT_loop`, `exprT_ifE` and `itemT_fn` recover the source's
factoring exactly. -/

mutual

/-- `Generator::expr`: dispatch on the expression kind; panic on any
unsupported variant.  `op`, `tuple` and `block` appear inlined (see the
bridge lemmas). -/
def exprT (e : Expr) (s : GenState) : Res :=
  match e with
  | .lit l => literalT l s
  | .path p => pathT p s
  | .call f args =>
    match exprT f s with
    | .error er => .error er
    | .ok s₁ =>
      match tupleElems args (pushStr "(" s₁) with
      | .error er => .error er
      | .ok s₂ => .ok (pushStr ")" s₂)
  | .binary op lhs rhs =>
    match exprT lhs s with
    | .error er => .error er
    | .ok s₁ => exprT rhs (pushStr " " (pushStr op.toStr (pushStr " " s₁)))
  | .assign a b =>
    match exprT a s with
    | .error er => .error er
    | .ok s₁ => exprT b (pushStr " = " s₁)
  | .assignOp op a b =>
    match exprT a s with
    | .error er => .error er
    | .ok s₁ =>
      match exprT a (pushStr " = " s₁) with
      | .error er => .error er
      | .ok s₂ => exprT b (pushStr " " (pushStr op.toStr (pushStr " " s₂)))
  | .ret none => .ok (pushStr "return" s)
  | .ret (some v) => exprT v (pushStr "return " s)
  | .loop body _label =>
    let s₁ := pushStr "while true do\n" s
    match stmtsT body { s₁ with curr_indent := s₁.curr_indent + 1 } with
    | .error er => .error er
    | .ok s₂ => .ok (endG { s₂ with curr_indent := s₂.curr_indent - 1 })
  | .ifE cond thenB _els =>
    match exprT cond (pushStr "if " s) with
    | .error er => .error er
    | .ok s₁ =>
      let s₂ := pushStr " then\n" s₁
      match stmtsT thenB { s₂ with curr_indent := s₂.curr_indent + 1 } with
      | .error er => .error er
      | .ok s₃ => .ok (endG { s₃ with curr_indent := s₃.curr_indent - 1 })
  | .breakE _label none => .ok (pushStr "break" s)
  | .breakE _label (some v) => exprT v (pushStr "break " s)
  | .other d => .error (.unsupportedExpr (.other d), s)

/-- The loop body of `Generator::tuple`: each argument expression with a
`", "` separator after every argument except the last. -/
def tupleElems (args : List Expr) (s : GenState) : Res :=
  match args with
  | [] => .ok s
  | [a] => exprT a s
  | a :: b :: rest =>
    match exprT a s with
    | .error er => .error er
    | .ok s₁ => tupleElems (b :: rest) (pushStr ", " s₁)

/-- The statement loop inside `Generator::block`. -/
def stmtsT (stmts : List Stmt) (s : GenState) : Res :=
  match stmts with
  | [] => .ok s
  | st :: rest =>
    match stmtT st s with
    | .error er => .error er
    | .ok s₁ => stmtsT rest s₁

/-- `Generator::stmt`: write the indentation prefix, dispatch on the
statement kind, then a newline.  `Expr` and `Semi` emit identically; `Local`
is `local <pat>` with an optional ` = <init>`; panic on any other kind. -/
def stmtT (st : Stmt) (s : GenState) : Res :=
  let s₀ := indentG s
  match st with
  | .item i =>
    match itemT i s₀ with
    | .error er => .error er
    | .ok s₁ => .ok (pushStr "\n" s₁)
  | .expr e =>
    match exprT e s₀ with
    | .error er => .error er
    | .ok s₁ => .ok (pushStr "\n" s₁)
  | .semi e =>
    match exprT e s₀ with
    | .error er => .error er
    | .ok s₁ => .ok (pushStr "\n" s₁)
  | .localS p init =>
    match patT p (pushStr "local " s₀) with
    | .error er => .error er
    | .ok s₁ =>
      match init with
      | none => .ok (pushStr "\n" s₁)
      | some e =>
        match exprT e (pushStr " = " s₁) with
        | .error er => .error er
        | .ok s₂ => .ok (pushStr "\n" s₂)
  | .other d => .error (.unsupportedStmt (.other d), s₀)

/-- `Generator::item`: only function definitions — `function <name>`,
parameter list, newline, body block (inlined), `end`, blank line; panic
otherwise. -/
def itemT (i : Item) (s : GenState) : Res :=
  match i with
  | .fn name inputs body =>
    match argsT inputs (pushStr ("function " ++ name) s) with
    | .error er => .error er
    | .ok s₁ =>
      let s₂ := pushStr "\n" s₁
      match stmtsT body { s₂ with curr_indent := s₂.curr_indent + 1 } with
      | .error er => .error er
      | .ok s₃ => .ok (pushStr "\n\n" (endG { s₃ with curr_indent := s₃.curr_indent - 1 }))
  | .other d => .error (.unsupportedItem (.other d), s)

end

/-- `Generator::op`: left operand, space, operator symbol, space, right
operand. -/
def opT (op : BinOpKind) (lhs rhs : Expr) (s : GenState) : Res :=
  match exprT lhs s with
  | .error er => .error er
  | .ok s₁ => exprT rhs (pushStr " " (pushStr op.toStr (pushStr " " s₁)))

/-- `Generator::tuple`: parenthesized comma-space-separated argument list. -/
def tupleT (args : List Expr) (s : GenState) : Res :=
  match tupleElems args (pushStr "(" s) with
  | .error er => .error er
  | .ok s₁ => .ok (pushStr ")" s₁)

/-- `Generator::block`: increment the indentation counter, emit the
statements in order, decrement.  The decrement is reached only when every
statement emitted successfully (a panic unwinds past it). -/
def blockT (stmts : List Stmt) (s : GenState) : Res :=
  match stmtsT stmts { s with curr_indent := s.curr_indent + 1 } with
  | .error er => .error er
  | .ok s₁ => .ok { s₁ with curr_indent := s₁.curr_indent - 1 }

/-- `Generator::module`: translate the items in source order. -/
def moduleT (items : List Item) (s : GenState) : Res :=
  match items with
  | [] => .ok s
  | i :: rest =>
    match itemT i s with
    | .error er => .error er
    | .ok s₁ => moduleT rest s₁

/-- The observable output of `main` after parsing: the buffer is printed to
stdout only when the whole module translated; a panic prints nothing. -/
def mainOutput (items : List Item) : Option String :=
  match moduleT items initState with
  | .ok s => some s.buf
  | .error _ => none

/-! ## The emitter invariant

`Ext s s'` says the run from `s` to `s'` only appended to the buffer, and
that every indentation-prefix event it recorded happened at a non-negative
depth (relative to a well-formed start).  `Pres s r` packages the facts every
translation function preserves: on success the indentation counter is
restored exactly; on a panic it is at least the starting value; and in both
cases the run was an `Ext`. -/

/-- Buffer is append-only and newly traced depths are non-negative. -/
def Ext (s s' : GenState) : Prop :=
  (∃ t, s'.buf = s.buf ++ t) ∧
  ((∀ x ∈ s.trace, 0 ≤ x) → 0 ≤ s.curr_indent → ∀ x ∈ s'.trace, 0 ≤ x)

/-- Invariant of a translation result relative to its starting state. -/
def Pres (s : GenState) (r : Res) : Prop :=
  match r with
  | .ok s' => s'.curr_indent = s.curr_indent ∧ Ext s s'
  | .error (_, s') => s.curr_indent ≤ s'.curr_indent ∧ Ext s s'

/-- The generator state carried by a result: the final state on success, the
state at the point of detection on a panic. -/
def resState (r : Res) : GenState :=
  match r with
  | .ok s => s
  | .error (_, s) => s

/-- Bridge: the binary-operation case of `expr` is exactly `Generator::op`. -/
theorem exprT_binary (op : BinOpKind) (lhs rhs : Expr) (s : GenState) :
    exprT (.binary op lhs rhs) s = opT op lhs rhs s := by
  rw [exprT, opT]

/-- Bridge: the compound-assignment case of `expr` is target, `" = "`, then
`Generator::op` on (target, operator, value). -/
theorem exprT_assignOp (op : BinOpKind) (a b : Expr) (s : GenState) :
    exprT (.assignOp op a b) s =
      (match exprT a s with
       | .error er => .error er
       | .ok s₁ => opT op a b (pushStr " = " s₁)) := by
  rw [exprT]
  cases h : exprT a s with
  | error er => rfl
  | ok s₁ => dsimp only; rw [opT]

/-- Bridge: the call case of `expr` is callee then `Generator::tuple`. -/
theorem exprT_call (f : Expr) (args : List Expr) (s : GenState) :
    exprT (.call f args) s =
      (match exprT f s with
       | .error er => .error er
       | .ok s₁ => tupleT args s₁) := by
  rw [exprT]
  cases h : exprT f s with
  | error er => rfl
  | ok s₁ => dsimp only; rw [tupleT]

/-- Bridge: the loop case of `expr` is the header, `Generator::block`, then
`Generator::end`. -/
theorem exprT_loop (body : List Stmt) (label : Option String) (s : GenState) :
    exprT (.loop body label) s =
      (match blockT body (pushStr "while true do\n" s) with
       | .error er => .error er
       | .ok s₁ => .ok (endG s₁)) := by
  rw [exprT, blockT]
  cases h : stmtsT body
      { pushStr "while true do\n" s with
          curr_indent := (pushStr "while true do\n" s).curr_indent + 1 } with
  | error er => rfl
  | ok s₁ => rfl

/-- Bridge: the conditional case of `expr` is `if `, the condition, ` then`,
`Generator::block` on the then-Block, then `Generator::end`. -/
theorem exprT_ifE (cond : Expr) (thenB : List Stmt) (els : Option Expr) (s : GenState) :
    exprT (.ifE cond thenB els) s =
      (match exprT cond (pushStr "if " s) with
       | .error er => .error er
       | .ok s₁ =>
         match blockT thenB (pushStr " then\n" s₁) with
         | .error er => .error er
         | .ok s₂ => .ok (endG s₂)) := by
  rw [exprT]
  cases hc : exprT cond (pushStr "if " s) with
  | error er => rfl
  | ok s₁ =>
    dsimp only [blockT]
    cases h : stmtsT thenB
        { pushStr " then\n" s₁ with
            curr_indent := (pushStr " then\n" s₁).curr_indent + 1 } with
    | error er => rfl
    | ok s₂ => rfl

/-- Bridge: the function-definition case of `item` is header, parameter
list, newline, `Generator::block`, `Generator::end`, blank line. -/
theorem itemT_fn (name : String) (inputs : List Pat) (body : List Stmt) (s : GenState) :
    itemT (.fn name inputs body) s =
      (match argsT inputs (pushStr ("function " ++ name) s) with
       | .error er => .error er
       | .ok s₁ =>
         match blockT body (pushStr "\n" s₁) with
         | .error er => .error er
         | .ok s₂ => .ok (pushStr "\n\n" (endG s₂))) := by
  rw [itemT]
  cases ha : argsT inputs (pushStr ("function " ++ name) s) with
  | error er => rfl
  | ok s₁ =>
    dsimp only [blockT]
    cases h : stmtsT body
        { pushStr "\n" s₁ with curr_indent := (pushStr "\n" s₁).curr_indent + 1 } with
    | error er => rfl
    | ok s₂ => rfl

theorem ext_refl (s : GenState) : Ext s s :=
  ⟨⟨"", (String.append_empty _).symm⟩, fun h _ => h⟩

theorem ext_trans {s s₁ s₂ : GenState} (h₁ : Ext s s₁)
    (hle : s.curr_indent ≤ s₁.curr_indent) (h₂ : Ext s₁ s₂) : Ext s s₂ := by
  obtain ⟨⟨t₁, hb₁⟩, ht₁⟩ := h₁
  obtain ⟨⟨t₂, hb₂⟩, ht₂⟩ := h₂
  refine ⟨⟨t₁ ++ t₂, by rw [hb₂, hb₁, String.append_assoc]⟩, ?_⟩
  intro h0 hι
  exact ht₂ (ht₁ h0 hι) (le_trans hι hle)

theorem ext_pushStr (t : String) (s : GenState) : Ext s (pushStr t s) :=
  ⟨⟨t, rfl⟩, fun h _ => h⟩

theorem ext_indentG (s : GenState) : Ext s (indentG s) := by
  refine ⟨⟨_, rfl⟩, ?_⟩
  intro h h0 x hx
  simp only [indentG, List.mem_append, List.mem_singleton] at hx
  rcases hx with hx | rfl
  · exact h x hx
  · exact h0

/-- Starting a successful step: `Pres s (.ok s₁)` then continue from `s₁`. -/
theorem presStep {s s₁ : GenState} {r : Res}
    (h : Pres s (.ok s₁)) (k : Pres s₁ r) : Pres s r := by
  obtain ⟨hι, hext⟩ := h
  match r with
  | .ok s₂ =>
    obtain ⟨hι₂, hext₂⟩ := k
    exact ⟨hι₂.trans hι, ext_trans hext (le_of_eq hι.symm) hext₂⟩
  | .error (er, s₂) =>
    obtain ⟨hι₂, hext₂⟩ := k
    exact ⟨hι ▸ hι₂, ext_trans hext (le_of_eq hι.symm) hext₂⟩

theorem pres_ok_self (s : GenState) : Pres s (.ok s) :=
  ⟨rfl, ext_refl s⟩

theorem pres_ok_pushStr (t : String) (s : GenState) : Pres s (.ok (pushStr t s)) :=
  ⟨rfl, ext_pushStr t s⟩

theorem pres_ok_indentG (s : GenState) : Pres s (.ok (indentG s)) :=
  ⟨rfl, ext_indentG s⟩

theorem pres_ok_endG (s : GenState) : Pres s (.ok (endG s)) :=
  presStep (pres_ok_indentG s) (pres_ok_pushStr "end" (indentG s))

theorem literalT_pres (l : Lit) (s : GenState) : Pres s (literalT l s) := by
  match l with
  | .str str => exact pres_ok_pushStr _ s
  | .int n => exact pres_ok_pushStr _ s
  | .other d => exact ⟨le_refl _, ext_refl s⟩

theorem pathT_pres (p : Path) (s : GenState) : Pres s (pathT p s) := by
  rw [pathT]
  match p.segments with
  | [seg] => exact pres_ok_pushStr _ s
  | [] => exact ⟨le_refl _, ext_refl s⟩
  | _ :: _ :: _ => exact ⟨le_refl _, ext_refl s⟩

theorem patT_pres (p : Pat) (s : GenState) : Pres s (patT p s) := by
  match p with
  | .ident name => exact pres_ok_pushStr _ s
  | .path q => rw [patT]; exact pathT_pres q s
  | .other d => exact ⟨le_refl _, ext_refl s⟩

theorem argsElems_pres (pats : List Pat) (s : GenState) : Pres s (argsElems pats s) := by
  match pats with
  | [] => exact pres_ok_self s
  | [p] => rw [argsElems]; exact patT_pres p s
  | p :: q :: rest =>
    rw [argsElems]
    have hp := patT_pres p s
    cases h : patT p s with
    | error er => rw [h] at hp; exact hp
    | ok s₁ =>
      rw [h] at hp
      exact presStep hp (presStep (pres_ok_pushStr ", " s₁)
        (argsElems_pres (q :: rest) (pushStr ", " s₁)))

theorem argsT_pres (pats : List Pat) (s : GenState) : Pres s (argsT pats s) := by
  rw [argsT]
  have ha := argsElems_pres pats (pushStr "(" s)
  cases h : argsElems pats (pushStr "(" s) with
  | error er =>
    rw [h] at ha
    exact presStep (pres_ok_pushStr "(" s) ha
  | ok s₁ =>
    rw [h] at ha
    exact presStep (pres_ok_pushStr "(" s) (presStep ha (pres_ok_pushStr ")" s₁))

mutual

theorem exprT_pres (e : Expr) (s : GenState) : Pres s (exprT e s) := by
  match e with
  | .lit l => rw [exprT]; exact literalT_pres l s
  | .path p => rw [exprT]; exact pathT_pres p s
  | .call f args =>
    rw [exprT_call]
    have hf := exprT_pres f s
    cases h : exprT f s with
    | error er => rw [h] at hf; exact hf
    | ok s₁ => rw [h] at hf; exact presStep hf (tupleT_pres args s₁)
  | .binary op lhs rhs => rw [exprT_binary]; exact opT_pres op lhs rhs s
  | .assign a b =>
    rw [exprT]
    have ha := exprT_pres a s
    cases h : exprT a s with
    | error er => rw [h] at ha; exact ha
    | ok s₁ =>
      rw [h] at ha
      exact presStep ha (presStep (pres_ok_pushStr " = " s₁)
        (exprT_pres b (pushStr " = " s₁)))
  | .assignOp op a b =>
    rw [exprT_assignOp]
    have ha := exprT_pres a s
    cases h : exprT a s with
    | error er => rw [h] at ha; exact ha
    | ok s₁ =>
      rw [h] at ha
      exact presStep ha (presStep (pres_ok_pushStr " = " s₁)
        (opT_pres op a b (pushStr " = " s₁)))
  | .ret none => rw [exprT]; exact pres_ok_pushStr _ s
  | .ret (some v) =>
    rw [exprT]
    exact presStep (pres_ok_pushStr "return " s) (exprT_pres v (pushStr "return " s))
  | .loop body label =>
    rw [exprT_loop]
    have hb := blockT_pres body (pushStr "while true do\n" s)
    cases h : blockT body (pushStr "while true do\n" s) with
    | error er =>
      rw [h] at hb
      exact presStep (pres_ok_pushStr "while true do\n" s) hb
    | ok s₁ =>
      rw [h] at hb
      exact presStep (pres_ok_pushStr "while true do\n" s)
        (presStep hb (pres_ok_endG s₁))
  | .ifE cond thenB els =>
    rw [exprT_ifE]
    have hc := exprT_pres cond (pushStr "if " s)
    cases h : exprT cond (pushStr "if " s) with
    | error er =>
      rw [h] at hc
      exact presStep (pres_ok_pushStr "if " s) hc
    | ok s₁ =>
      rw [h] at hc
      dsimp only
      have hb := blockT_pres thenB (pushStr " then\n" s₁)
      cases h₂ : blockT thenB (pushStr " then\n" s₁) with
      | error er =>
        rw [h₂] at hb
        exact presStep (pres_ok_pushStr "if " s) (presStep hc
          (presStep (pres_ok_pushStr " then\n" s₁) hb))
      | ok s₂ =>
        rw [h₂] at hb
        exact presStep (pres_ok_pushStr "if " s) (presStep hc
          (presStep (pres_ok_pushStr " then\n" s₁) (presStep hb (pres_ok_endG s₂))))
  | .breakE label none => rw [exprT]; exact pres_ok_pushStr _ s
  | .breakE label (some v) =>
    rw [exprT]
    exact presStep (pres_ok_pushStr "break " s) (exprT_pres v (pushStr "break " s))
  | .other d => rw [exprT]; exact ⟨le_refl _, ext_refl s⟩
termination_by 2 * sizeOf e
decreasing_by all_goals (simp_wf; try omega)

theorem opT_pres (op : BinOpKind) (lhs rhs : Expr) (s : GenState) :
    Pres s (opT op lhs rhs s) := by
  rw [opT]
  have hl := exprT_pres lhs s
  cases h : exprT lhs s with
  | error er => rw [h] at hl; exact hl
  | ok s₁ =>
    rw [h] at hl
    exact presStep hl (presStep (pres_ok_pushStr " " s₁)
      (presStep (pres_ok_pushStr op.toStr _) (presStep (pres_ok_pushStr " " _)
        (exprT_pres rhs _))))
termination_by 2 * (sizeOf lhs + sizeOf rhs) + 1
decreasing_by all_goals (simp_wf; try omega)

theorem tupleElems_pres (args : List Expr) (s : GenState) :
    Pres s (tupleElems args s) := by
  match args with
  | [] => rw [tupleElems]; exact pres_ok_self s
  | [a] => rw [tupleElems]; exact exprT_pres a s
  | a :: b :: rest =>
    rw [tupleElems]
    have ha := exprT_pres a s
    cases h : exprT a s with
    | error er => rw [h] at ha; exact ha
    | ok s₁ =>
      rw [h] at ha
      exact presStep ha (presStep (pres_ok_pushStr ", " s₁)
        (tupleElems_pres (b :: rest) (pushStr ", " s₁)))
termination_by 2 * sizeOf args
decreasing_by all_goals (simp_wf; try omega)

theorem tupleT_pres (args : List Expr) (s : GenState) : Pres s (tupleT args s) := by
  rw [tupleT]
  have ha := tupleElems_pres args (pushStr "(" s)
  cases h : tupleElems args (pushStr "(" s) with
  | error er =>
    rw [h] at ha
    exact presStep (pres_ok_pushStr "(" s) ha
  | ok s₁ =>
    rw [h] at ha
    exact presStep (pres_ok_pushStr "(" s) (presStep ha (pres_ok_pushStr ")" s₁))
termination_by 2 * sizeOf args + 1
decreasing_by all_goals (simp_wf; try omega)

theorem blockT_pres (stmts : List Stmt) (s : GenState) : Pres s (blockT stmts s) := by
  rw [blockT]
  have hs := stmtsT_pres stmts { s with curr_indent := s.curr_indent + 1 }
  have e1 : Ext s { s with curr_indent := s.curr_indent + 1 } :=
    ⟨⟨"", (String.append_empty _).symm⟩, fun h _ => h⟩
  have hle1 : s.curr_indent ≤ s.curr_indent + 1 := by omega
  cases h : stmtsT stmts { s with curr_indent := s.curr_indent + 1 } with
  | error er =>
    rw [h] at hs
    obtain ⟨hι, hext⟩ := hs
    exact ⟨le_trans hle1 hι, ext_trans e1 hle1 hext⟩
  | ok s₁ =>
    rw [h] at hs
    obtain ⟨hι, hext⟩ := hs
    have hι' : s₁.curr_indent = s.curr_indent + 1 := hι
    have e2 : Ext s₁ { s₁ with curr_indent := s₁.curr_indent - 1 } :=
      ⟨⟨"", (String.append_empty _).symm⟩, fun h _ => h⟩
    refine ⟨show s₁.curr_indent - 1 = s.curr_indent by omega, ?_⟩
    exact ext_trans e1 hle1 (ext_trans hext (le_of_eq hι.symm) e2)
termination_by 2 * sizeOf stmts + 1
decreasing_by all_goals (simp_wf; try omega)

theorem stmtsT_pres (stmts : List Stmt) (s : GenState) : Pres s (stmtsT stmts s) := by
  match stmts with
  | [] => rw [stmtsT]; exact pres_ok_self s
  | st :: rest =>
    rw [stmtsT]
    have hs := stmtT_pres st s
    cases h : stmtT st s with
    | error er => rw [h] at hs; exact hs
    | ok s₁ => rw [h] at hs; exact presStep hs (stmtsT_pres rest s₁)
termination_by 2 * sizeOf stmts
decreasing_by all_goals (simp_wf; try omega)

theorem stmtT_pres (st : Stmt) (s : GenState) : Pres s (stmtT st s) := by
  match st with
  | .item i =>
    rw [stmtT]
    have hi := itemT_pres i (indentG s)
    cases h : itemT i (indentG s) with
    | error er => rw [h] at hi; exact presStep (pres_ok_indentG s) hi
    | ok s₁ =>
      rw [h] at hi
      exact presStep (pres_ok_indentG s) (presStep hi (pres_ok_pushStr "\n" s₁))
  | .expr e =>
    rw [stmtT]
    have he := exprT_pres e (indentG s)
    cases h : exprT e (indentG s) with
    | error er => rw [h] at he; exact presStep (pres_ok_indentG s) he
    | ok s₁ =>
      rw [h] at he
      exact presStep (pres_ok_indentG s) (presStep he (pres_ok_pushStr "\n" s₁))
  | .semi e =>
    rw [stmtT]
    have he := exprT_pres e (indentG s)
    cases h : exprT e (indentG s) with
    | error er => rw [h] at he; exact presStep (pres_ok_indentG s) he
    | ok s₁ =>
      rw [h] at he
      exact presStep (pres_ok_indentG s) (presStep he (pres_ok_pushStr "\n" s₁))
  | .localS p init =>
    rw [stmtT]
    have hp := patT_pres p (pushStr "local " (indentG s))
    cases h : patT p (pushStr "local " (indentG s)) with
    | error er =>
      rw [h] at hp
      exact presStep (pres_ok_indentG s) (presStep (pres_ok_pushStr "local " _) hp)
    | ok s₁ =>
      rw [h] at hp
      dsimp only
      match init with
      | none =>
        exact presStep (pres_ok_indentG s) (presStep (pres_ok_pushStr "local " _)
          (presStep hp (pres_ok_pushStr "\n" s₁)))
      | some e =>
        dsimp only
        have he := exprT_pres e (pushStr " = " s₁)
        cases h₂ : exprT e (pushStr " = " s₁) with
        | error er =>
          rw [h₂] at he
          exact presStep (pres_ok_indentG s) (presStep (pres_ok_pushStr "local " _)
            (presStep hp (presStep (pres_ok_pushStr " = " s₁) he)))
        | ok s₂ =>
          rw [h₂] at he
          exact presStep (pres_ok_indentG s) (presStep (pres_ok_pushStr "local " _)
            (presStep hp (presStep (pres_ok_pushStr " = " s₁)
              (presStep he (pres_ok_pushStr "\n" s₂)))))
  | .other d =>
    rw [stmtT]
    exact presStep (pres_ok_indentG s) ⟨le_refl _, ext_refl (indentG s)⟩
termination_by 2 * sizeOf st
decreasing_by all_goals (simp_wf; try omega)

theorem itemT_pres (i : Item) (s : GenState) : Pres s (itemT i s) := by
  match i with
  | .fn name inputs body =>
    rw [itemT_fn]
    have ha := argsT_pres inputs (pushStr ("function " ++ name) s)
    cases h : argsT inputs (pushStr ("function " ++ name) s) with
    | error er =>
      rw [h] at ha
      exact presStep (pres_ok_pushStr _ s) ha
    | ok s₁ =>
      rw [h] at ha
      dsimp only
      have hb := blockT_pres body (pushStr "\n" s₁)
      cases h₂ : blockT body (pushStr "\n" s₁) with
      | error er =>
        rw [h₂] at hb
        exact presStep (pres_ok_pushStr _ s) (presStep ha
          (presStep (pres_ok_pushStr "\n" s₁) hb))
      | ok s₂ =>
        rw [h₂] at hb
        exact presStep (pres_ok_pushStr _ s) (presStep ha
          (presStep (pres_ok_pushStr "\n" s₁) (presStep hb
            (presStep (pres_ok_endG s₂) (pres_ok_pushStr "\n\n" (endG s₂))))))
  | .other d => rw [itemT]; exact ⟨le_refl _, ext_refl s⟩
termination_by 2 * sizeOf i
decreasing_by all_goals (simp_wf; try omega)

end

theorem moduleT_pres (items : List Item) (s : GenState) : Pres s (moduleT items s) := by
  match items with
  | [] => rw [moduleT]; exact pres_ok_self s
  | i :: rest =>
    rw [moduleT]
    have hi := itemT_pres i s
    cases h : itemT i s with
    | error er => rw [h] at hi; exact hi
    | ok s₁ => rw [h] at hi; exact presStep hi (moduleT_pres rest s₁)

theorem presExt {s : GenState} {r : Res} (h : Pres s r) : Ext s (resState r) := by
  match r with
  | .ok s' => exact h.2
  | .error (er, s') => exact h.2

/-- `stmtT` seen from the state right after its indentation prefix: the rest
of the statement emission only ever appends to that state. -/
theorem stmtT_pres_inner (st : Stmt) (s : GenState) :
    Pres (indentG s) (stmtT st s) := by
  match st with
  | .item i =>
    rw [stmtT]
    have hi := itemT_pres i (indentG s)
    cases h : itemT i (indentG s) with
    | error er => rw [h] at hi; exact hi
    | ok s₁ => rw [h] at hi; exact presStep hi (pres_ok_pushStr "\n" s₁)
  | .expr e =>
    rw [stmtT]
    have he := exprT_pres e (indentG s)
    cases h : exprT e (indentG s) with
    | error er => rw [h] at he; exact he
    | ok s₁ => rw [h] at he; exact presStep he (pres_ok_pushStr "\n" s₁)
  | .semi e =>
    rw [stmtT]
    have he := exprT_pres e (indentG s)
    cases h : exprT e (indentG s) with
    | error er => rw [h] at he; exact he
    | ok s₁ => rw [h] at he; exact presStep he (pres_ok_pushStr "\n" s₁)
  | .localS p init =>
    rw [stmtT]
    have hp := patT_pres p (pushStr "local " (indentG s))
    cases h : patT p (pushStr "local " (indentG s)) with
    | error er =>
      rw [h] at hp
      exact presStep (pres_ok_pushStr "local " _) hp
    | ok s₁ =>
      rw [h] at hp
      dsimp only
      match init with
      | none =>
        exact presStep (pres_ok_pushStr "local " _) (presStep hp (pres_ok_pushStr "\n" s₁))
      | some e =>
        dsimp only
        have he := exprT_pres e (pushStr " = " s₁)
        cases h₂ : exprT e (pushStr " = " s₁) with
        | error er =>
          rw [h₂] at he
          exact presStep (pres_ok_pushStr "local " _)
            (presStep hp (presStep (pres_ok_pushStr " = " s₁) he))
        | ok s₂ =>
          rw [h₂] at he
          exact presStep (pres_ok_pushStr "local " _)
            (presStep hp (presStep (pres_ok_pushStr " = " s₁)
              (presStep he (pres_ok_pushStr "\n" s₂))))
  | .other d =>
    rw [stmtT]
    exact ⟨le_refl _, ext_refl (indentG s)⟩

/-! ## The claims -/

/-- C1 (amended): every translation function applied to a syntax-tree
variant outside the supported subset fails with the matching Unsupported-*
error carrying the offending node, and when translation of the module fails
no output text is produced.  The original claim's final clause — translation
never emits any text for an input *containing* an unsupported construct — is
refuted by `C1_counterexample`: a construct sitting only in a dropped
else-branch is never examined. -/
theorem C1_rejection :
    (∀ (d : String) (s : GenState),
        exprT (.other d) s = .error (.unsupportedExpr (.other d), s)) ∧
    (∀ (d : String) (s : GenState),
        stmtT (.other d) s = .error (.unsupportedStmt (.other d), indentG s)) ∧
    (∀ (d : String) (s : GenState),
        itemT (.other d) s = .error (.unsupportedItem (.other d), s)) ∧
    (∀ (d : String) (s : GenState),
        literalT (.other d) s = .error (.unsupportedLit (.other d), s)) ∧
    (∀ (d : String) (s : GenState),
        patT (.other d) s = .error (.unsupportedPat (.other d), s)) ∧
    (∀ (p : Path) (s : GenState), p.segments.length ≠ 1 →
        pathT p s = .error (.unsupportedPath p, s)) ∧
    (∀ (items : List Item) (er : Err × GenState),
        moduleT items initState = .error er → mainOutput items = none) := by
  refine ⟨?_, ?_, ?_, ?_, ?_, ?_, ?_⟩
  · intro d s; rw [exprT]
  · intro d s; rw [stmtT]
  · intro d s; rw [itemT]
  · intro d s; rfl
  · intro d s; rfl
  · intro p s h
    rw [pathT]
    cases hseg : p.segments with
    | nil => rfl
    | cons x xs =>
      cases xs with
      | nil => rw [hseg] at h; simp at h
      | cons y ys => rfl
  · intro items er h
    simp [mainOutput, h]

/-- C1 witness: the rejection equations at concrete unsupported inputs, with
the hypotheses discharged there. -/
theorem C1_rejection_witness :
    pathT ⟨["a", "b"]⟩ initState = .error (.unsupportedPath ⟨["a", "b"]⟩, initState) ∧
    mainOutput [Item.other "Use"] = none :=
  ⟨C1_rejection.2.2.2.2.2.1 ⟨["a", "b"]⟩ initState (by decide),
   C1_rejection.2.2.2.2.2.2 [Item.other "Use"]
     (.unsupportedItem (.other "Use"), initState) (by rw [moduleT, itemT])⟩

/-- C1 counterexample: an input containing an unsupported construct — inside
the dropped else-branch of a conditional — for which translation succeeds and
emits text, refuting "translation never emits any text for an input
containing an unsupported construct". -/
theorem C1_counterexample :
    mainOutput [Item.fn "f" []
      [Stmt.expr (.ifE (.path ⟨["c"]⟩) [] (some (.other "unsupported-node")))]] =
      some "function f()\n  if c then\n  end\nend\n\n" := by
  simp only [mainOutput, moduleT, itemT, argsT, argsElems, blockT, stmtsT, stmtT,
    exprT, pathT, patT, literalT, tupleT, tupleElems, opT]
  rfl

/-- C2: a compound assignment `x op= y` is emitted exactly as the assignment
of the binary operation — target, `" = "`, then `x op y`; in particular
`x += y` becomes `x = x + y`. -/
theorem C2_compound_assignment :
    (∀ (op : BinOpKind) (a b : Expr) (s : GenState),
        exprT (.assignOp op a b) s = exprT (.assign a (.binary op a b)) s) ∧
    exprT (.assignOp .add (.path ⟨["x"]⟩) (.path ⟨["y"]⟩)) initState =
      .ok ⟨"x = x + y", 0, []⟩ := by
  constructor
  · intro op a b s
    simp only [exprT]
  · simp only [exprT, opT, pathT]
    rfl

/-- C3: the function `add(a, b) { return a + b }` translates to a block
whose first line is `function add(a, b)`, whose body line is the statement
`return a + b` at one indentation level, closed by `end` at the enclosing
indentation (and the blank-line separator after the item). -/
theorem C3_function_add :
    mainOutput [Item.fn "add" [.ident "a", .ident "b"]
      [Stmt.semi (.ret (some (.binary .add (.path ⟨["a"]⟩) (.path ⟨["b"]⟩))))]] =
      some "function add(a, b)\n  return a + b\nend\n\n" := by
  simp only [mainOutput, moduleT, itemT, argsT, argsElems, blockT, stmtsT, stmtT,
    exprT, pathT, patT, literalT, tupleT, tupleElems, opT]
  rfl

/-- C4: an infinite loop whose body is a conditional that breaks with value
`1` emits `while true do`, the `if x then` header one level deeper, `break 1`
one level deeper still, then the conditional's `end` at its enclosing
indentation (depth 1) and the loop's `end` at the loop's enclosing
indentation (depth 0); the trace records the emission depths 1, 2, 1, 0. -/
theorem C4_loop_break :
    exprT (.loop [Stmt.expr (.ifE (.path ⟨["x"]⟩)
        [Stmt.semi (.breakE none (some (.lit (.int 1))))] none)] none) initState =
      .ok ⟨"while true do\n  if x then\n    break 1\n  end\nend", 0, [1, 2, 1, 0]⟩ := by
  simp only [exprT, blockT, stmtsT, stmtT, pathT, literalT]
  rfl

/-- C5: the local binding `let x = f(1, 'a')` translates to the statement
line `local x = f(1, 'a')` (followed by the uniform statement terminator):
arguments in source order, the integer unquoted in decimal, the string
single-quoted, comma-space separation, no trailing comma. -/
theorem C5_local_binding :
    stmtT (.localS (.ident "x")
        (some (.call (.path ⟨["f"]⟩) [.lit (.int 1), .lit (.str "a")]))) initState =
      .ok ⟨"local x = f(1, 'a')\n", 0, [0]⟩ := by
  simp only [stmtT, patT, exprT, pathT, tupleT, tupleElems, literalT]
  rfl

/-- C6: starting from any well-formed state (non-negative depth, all traced
emission depths non-negative), a fully emitted Block restores the depth
counter exactly and keeps it non-negative, every statement's indentation
prefix is emitted at a non-negative depth (ok and error runs alike), and the
same holds for a whole `module` run from the initial state. -/
theorem C6_indentation_invariant :
    ∀ (stmts : List Stmt) (s : GenState), 0 ≤ s.curr_indent → (∀ x ∈ s.trace, 0 ≤ x) →
      ((∀ s', blockT stmts s = .ok s' →
          s'.curr_indent = s.curr_indent ∧ 0 ≤ s'.curr_indent ∧ ∀ x ∈ s'.trace, 0 ≤ x) ∧
       (∀ er, blockT stmts s = .error er →
          0 ≤ er.2.curr_indent ∧ ∀ x ∈ er.2.trace, 0 ≤ x)) ∧
      ∀ (items : List Item),
        0 ≤ (resState (moduleT items initState)).curr_indent ∧
        ∀ x ∈ (resState (moduleT items initState)).trace, 0 ≤ x := by
  intro stmts s h0 ht
  constructor
  · constructor
    · intro s' h
      have hp := blockT_pres stmts s
      rw [h] at hp
      obtain ⟨hι, hext⟩ := hp
      exact ⟨hι, hι ▸ h0, hext.2 ht h0⟩
    · intro er h
      have hp := blockT_pres stmts s
      rw [h] at hp
      obtain ⟨hle, hext⟩ := hp
      exact ⟨le_trans h0 hle, hext.2 ht h0⟩
  · intro items
    have hp := moduleT_pres items initState
    have hext := presExt hp
    have htr := hext.2 (by intro x hx; cases hx) (by exact le_refl 0)
    refine ⟨?_, htr⟩
    cases h : moduleT items initState with
    | ok s' =>
      rw [h] at hp
      simp only [resState, h]
      exact le_of_eq hp.1.symm
    | error er =>
      rw [h] at hp
      simp only [resState, h]
      exact hp.1

/-- C6 witness: the invariant applied to the empty Block at the initial
state, with both hypotheses discharged there. -/
theorem C6_indentation_invariant_witness :
    initState.curr_indent = initState.curr_indent ∧ 0 ≤ initState.curr_indent ∧
      ∀ x ∈ initState.trace, 0 ≤ x :=
  ((C6_indentation_invariant [] initState (by decide)
      (by intro x hx; cases hx)).1.1) initState (by rfl)

/-- C7 (amended): the increment on entering a Block is paired with the
decrement only on the success path — a fully emitted Block restores the
counter exactly, but when emission of the Block's contents fails the run
aborts with the counter still at least one above its pre-Block value: the
decrement does not happen on the error path. -/
theorem C7_block_depth_pairing :
    ∀ (stmts : List Stmt) (s : GenState),
      (∀ s', blockT stmts s = .ok s' → s'.curr_indent = s.curr_indent) ∧
      (∀ er, blockT stmts s = .error er → s.curr_indent + 1 ≤ er.2.curr_indent) := by
  intro stmts s
  constructor
  · intro s' h
    have hp := blockT_pres stmts s
    rw [h] at hp
    exact hp.1
  · intro er h
    rw [blockT] at h
    have hs := stmtsT_pres stmts { s with curr_indent := s.curr_indent + 1 }
    cases hh : stmtsT stmts { s with curr_indent := s.curr_indent + 1 } with
    | ok s₁ => rw [hh] at h; cases h
    | error er' =>
      rw [hh] at h
      cases h
      rw [hh] at hs
      exact hs.1

/-- C7 witness: the pairing statement applied at concrete inputs — an empty
Block restores depth 0, and a Block whose statement is unsupported aborts
with the counter at 1. -/
theorem C7_block_depth_pairing_witness :
    initState.curr_indent = initState.curr_indent ∧
      initState.curr_indent + 1 ≤ (⟨"  ", 1, [1]⟩ : GenState).curr_indent :=
  ⟨(C7_block_depth_pairing [] initState).1 initState (by rfl),
   (C7_block_depth_pairing [Stmt.other "mac"] initState).2
     (.unsupportedStmt (.other "mac"), ⟨"  ", 1, [1]⟩) (by rfl)⟩

/-- C7 counterexample: the claim that the counter is restored even when the
run aborts is false — a Block whose sole statement is unsupported aborts
with the counter still incremented (1, against a pre-Block value of 0). -/
theorem C7_counterexample :
    blockT [Stmt.other "mac"] initState =
      .error (.unsupportedStmt (.other "mac"), ⟨"  ", 1, [1]⟩) ∧
    (⟨"  ", 1, [1]⟩ : GenState).curr_indent ≠ initState.curr_indent := by
  exact ⟨by rfl, by decide⟩

/-- C8: a conditional emits `if `, the condition, ` then`, the then-Block at
increased indentation and a closing `end`; the else-branch field contributes
nothing — translation is invariant in it and never fails because of it. -/
theorem C8_conditional_ignores_else :
    (∀ (cond : Expr) (thenB : List Stmt) (e₁ e₂ : Option Expr) (s : GenState),
        exprT (.ifE cond thenB e₁) s = exprT (.ifE cond thenB e₂) s) ∧
    exprT (.ifE (.path ⟨["x"]⟩) [] (some (.other "else-branch"))) initState =
      .ok ⟨"if x then\nend", 0, [0]⟩ := by
  constructor
  · intro cond thenB e₁ e₂ s
    rw [exprT_ifE, exprT_ifE]
  · rfl

/-- C9: a qualified name with exactly one segment emits that segment's
identifier text; one with more than one segment fails with the
Unsupported-Path error, so no multi-segment path is ever emitted. -/
theorem C9_path_single_segment :
    (∀ (seg : String) (s : GenState), pathT ⟨[seg]⟩ s = .ok (pushStr seg s)) ∧
    (∀ (p : Path) (s : GenState), 1 < p.segments.length →
        pathT p s = .error (.unsupportedPath p, s)) := by
  constructor
  · intro seg s; rfl
  · intro p s h
    rw [pathT]
    cases hseg : p.segments with
    | nil => rfl
    | cons x xs =>
      cases xs with
      | nil => rw [hseg] at h; simp at h
      | cons y ys => rfl

/-- C9 witness: both halves at concrete paths, the hypothesis discharged at
the two-segment path. -/
theorem C9_path_single_segment_witness :
    pathT ⟨["f"]⟩ initState = .ok (pushStr "f" initState) ∧
    pathT ⟨["a", "b"]⟩ initState = .error (.unsupportedPath ⟨["a", "b"]⟩, initState) :=
  ⟨C9_path_single_segment.1 "f" initState,
   C9_path_single_segment.2 ⟨["a", "b"]⟩ initState (by decide)⟩

/-- C10: the indentation prefix is exactly `2 * curr_indent` space
characters, and every statement emission writes it before any
statement-level content — the buffer after `stmt` extends the starting
buffer by that prefix followed by the statement's own text. -/
theorem C10_two_space_indent :
    (∀ s : GenState, (indentG s).buf =
        s.buf ++ String.mk (List.replicate (2 * s.curr_indent).toNat ' ')) ∧
    (∀ (st : Stmt) (s : GenState), ∃ t,
        (resState (stmtT st s)).buf =
          s.buf ++ String.mk (List.replicate (2 * s.curr_indent).toNat ' ') ++ t) := by
  constructor
  · intro s; rfl
  · intro st s
    have h := presExt (stmtT_pres_inner st s)
    obtain ⟨⟨t, hbuf⟩, -⟩ := h
    exact ⟨t, by rw [hbuf]; rfl⟩

end Rua
